import Mathlib

/-!
Verification of the NHL weekly pick tracker (`nhl_pick_app.py`).

The script stores two spreadsheet-backed tables: a picks table (columns
User, Week, Date, Game, Pick, Winner) and a schedule table (columns Week,
WeekStartDate, Date, Game, Home, Away).  We embed the tables as lists of
records and the script's operations as pure functions on those lists.

Modelling notes:
* Calendar dates are embedded as integers (a day number); `WeekStartDate`
  is an `Option Int`, where `none` stands for pandas `NaT`, the result of
  `pd.to_datetime(..., errors="coerce")` on an unparseable string.  In
  pandas every comparison against `NaT` is false, which the embedding
  reproduces by explicit `Option` matching.
* Accuracy figures that the script computes in floating point
  (`Series.mean`, `round(x, 1)`, `Series.round(1)`) are embedded over `ℚ`;
  Python and numpy both round half to even, which `roundHalfEven` mirrors.
* `pd.DataFrame` row order is list order; a boolean-mask assignment
  (`df.loc[mask, col] = v`) is a `List.map` that rewrites exactly the rows
  satisfying the mask.
-/

/-- Row of the picks table (`NHL_Pick_Data`), header
`User, Week, Date, Game, Pick, Winner`; all cells are strings. -/
structure PickRow where
  User : String
  Week : String
  Date : String
  Game : String
  Pick : String
  Winner : String
deriving DecidableEq

/-- Row of the schedule table (`NHL_Schedule`) after line 93 of the script
has coerced `WeekStartDate` with `pd.to_datetime(..., errors="coerce")`:
the column holds a date (`some d`, as a day number) or `NaT` (`none`). -/
structure ScheduleRow where
  Week : String
  WeekStartDate : Option Int
  Date : String
  Game : String
  Home : String
  Away : String
deriving DecidableEq

/-- Replace the `Pick` cell of a row, keeping all other cells
(the effect of `df.loc[mask,"Pick"] = pick` on one masked row). -/
def setPick (r : PickRow) (p : String) : PickRow :=
  ⟨r.User, r.Week, r.Date, r.Game, p, r.Winner⟩

/-- Replace the `Winner` cell of a row, keeping all other cells
(the effect of `df.loc[mask,"Winner"] = winner` on one masked row). -/
def setWinner (r : PickRow) (w : String) : PickRow :=
  ⟨r.User, r.Week, r.Date, r.Game, r.Pick, w⟩

/-- The row mask of `save_pick` (line 51):
`(df["User"]==user) & (df["Week"]==week) & (df["Game"]==game)`. -/
def keyB (r : PickRow) (user week game : String) : Bool :=
  r.User == user && r.Week == week && r.Game == game

/-- `save_pick` (lines 49-57): if any row matches the (User, Week, Game)
mask, overwrite the `Pick` cell of every matching row; otherwise append
the new row `{User, Week, Date, Game, Pick, Winner: ""}` at the end. -/
def save_pick (user week date game pick : String) (df : List PickRow) : List PickRow :=
  if df.any (fun r => keyB r user week game) then
    df.map (fun r => if keyB r user week game then setPick r pick else r)
  else
    df ++ [⟨user, week, date, game, pick, ""⟩]

/-- `save_winner` (lines 59-62): `df.loc[df["Game"]==game,"Winner"] = winner`,
i.e. set the `Winner` cell of every row whose `Game` equals `game`. -/
def save_winner (game winner : String) (df : List PickRow) : List PickRow :=
  df.map (fun r => if r.Game == game then setWinner r winner else r)

/-- Guard of the winner selectbox handler (line 158):
`winner != current_winner and winner != ""` decides whether
`save_winner` fires on a re-render. -/
def fire_save (winner current_winner : String) : Bool :=
  winner != current_winner && winner != ""

/-- Uniqueness invariant of the picks table (spec section 3): at most one
row per (User, Week, Game) triple. -/
def UniquePicks (df : List PickRow) : Prop :=
  ∀ u w g, df.countP (fun r => keyB r u w g) ≤ 1

/-- Mask of line 96: the row's coerced `WeekStartDate` is an actual date
that is on or before `today` (`NaT <= today` is false in pandas). -/
def parsedLe (today : Int) (r : ScheduleRow) : Bool :=
  match r.WeekStartDate with
  | some d => decide (d ≤ today)
  | none => false

/-- `past_weeks` (line 96): `schedule_df[schedule_df["WeekStartDate"] <= today]`. -/
def pastWeeks (sched : List ScheduleRow) (today : Int) : List ScheduleRow :=
  sched.filter (parsedLe today)

/-- Maximum of the `WeekStartDate` column over a list of rows
(`Series.max()` skips missing values and returns NaN on an all-missing
column, embedded as `none`). -/
def maxDate : List ScheduleRow → Option Int
  | [] => none
  | r :: rs =>
    match r.WeekStartDate, maxDate rs with
    | some d, some m => some (max d m)
    | some d, none => some d
    | none, m => m

/-- `current_week_start` (line 100): `past_weeks["WeekStartDate"].max()`. -/
def maxStartLe (sched : List ScheduleRow) (today : Int) : Option Int :=
  maxDate (pastWeeks sched today)

/-- `current_week` (lines 98-105): if no week start is on or before today
the sentinel `"TBD"` is used; otherwise the `Week` cell of the first
schedule row whose `WeekStartDate` equals the latest start `<= today`
(`current_week_row["Week"].iloc[0]`, line 102). -/
def current_week (sched : List ScheduleRow) (today : Int) : String :=
  if (pastWeeks sched today).isEmpty then "TBD"
  else
    match maxStartLe sched today with
    | none => "TBD"
    | some m =>
      match sched.find? (fun r => r.WeekStartDate == some m) with
      | none => "TBD"
      | some r => r.Week

/-- Whether the `st.info("No active week found. ...")` message of line 104
is emitted. -/
def no_week_message (sched : List ScheduleRow) (today : Int) : Bool :=
  (pastWeeks sched today).isEmpty

/-- `week_schedule` (line 108): `schedule_df[schedule_df["Week"] == current_week]`. -/
def week_schedule (sched : List ScheduleRow) (today : Int) : List ScheduleRow :=
  sched.filter (fun r => r.Week == current_week sched today)

/-- `week_status` (lines 110-118): `"Open"` when the week schedule is
empty; otherwise compare today against the first row's week start plus 7
days.  When that row's `WeekStartDate` is `NaT` the comparison
`today < NaT + 7 days` is false in pandas, so the status is `"Closed"`. -/
def week_status (sched : List ScheduleRow) (today : Int) : String :=
  match (week_schedule sched today).head? with
  | none => "Open"
  | some r =>
    match r.WeekStartDate with
    | some d => if today < d + 7 then "Open" else "Closed"
    | none => "Closed"

/-- Derived `Correct` column (line 166): `df_all["Pick"] == df_all["Winner"]`,
exact string equality. -/
def correctB (r : PickRow) : Bool := r.Pick == r.Winner

/-- Mean of the boolean `Correct` column over a list of rows
(`Series.mean()`: each `True` counts 1, each `False` counts 0,
divided by the number of rows). -/
def meanCorrect (rows : List PickRow) : ℚ :=
  (rows.map (fun r => if correctB r then (1 : ℚ) else 0)).sum / rows.length

/-- Round half to even at integer precision, the rule used by Python's
`round` and numpy's `Series.round`. -/
def roundHalfEven (q : ℚ) : Int :=
  if q < ⌊q⌋ + 1/2 then ⌊q⌋
  else if (⌊q⌋ : ℚ) + 1/2 < q then ⌊q⌋ + 1
  else if ⌊q⌋ % 2 = 0 then ⌊q⌋ else ⌊q⌋ + 1

/-- Round to one decimal place, half to even: `round(q, 1)` / `.round(1)`. -/
def round1 (q : ℚ) : ℚ := (roundHalfEven (q * 10) : ℚ) / 10

/-- `weekly_accuracy` (lines 167-173): filter the picks to the selected
user and the current week; when nonempty show
`round(user_picks["Correct"].mean()*100, 1)`, otherwise show an
informational message and no value (embedded as `none`). -/
def weekly_accuracy (df : List PickRow) (user week : String) : Option ℚ :=
  let user_picks := df.filter (fun r => r.User == user && r.Week == week)
  if user_picks.isEmpty then none
  else some (round1 (meanCorrect user_picks * 100))

/-- Group keys of `df.groupby("User")`: the distinct `User` values in
ascending order (pandas sorts group keys by default). -/
def sortedUsers (df : List PickRow) : List String :=
  ((df.map (fun r => r.User)).dedup).mergeSort (fun a b => decide (a ≤ b))

/-- One leaderboard (lines 181-182 and 189-190):
`df.groupby("User")["Correct"].mean()` followed by
`(mean*100).round(1)`, presented as (User, Accuracy%) rows. -/
def leaderboard (df : List PickRow) : List (String × ℚ) :=
  (sortedUsers df).map
    (fun u => (u, round1 (meanCorrect (df.filter (fun r => r.User == u)) * 100)))

/-- `weekly_leaderboard` (lines 179-182): the leaderboard of the rows of
the current week only. -/
def weekly_leaderboard (df : List PickRow) (week : String) : List (String × ℚ) :=
  leaderboard (df.filter (fun r => r.Week == week))

/-- `cumulative_leaderboard` (lines 188-190): the leaderboard of all rows
of all weeks. -/
def cumulative_leaderboard (df : List PickRow) : List (String × ℚ) :=
  leaderboard df

/-- Schedule used by the spec's worked example: week starts
2024-01-07, 2024-01-14, 2024-01-21, encoded as day numbers 7, 14, 21
of January 2024. -/
def exRow1 : ScheduleRow := ⟨"W1", some 7, "d1", "G1", "H1", "A1"⟩

/-- Second row of the example schedule (week start 2024-01-14). -/
def exRow2 : ScheduleRow := ⟨"W2", some 14, "d2", "G2", "H2", "A2"⟩

/-- Third row of the example schedule (week start 2024-01-21). -/
def exRow3 : ScheduleRow := ⟨"W3", some 21, "d3", "G3", "H3", "A3"⟩

/-- The example schedule table. -/
def exampleSchedule : List ScheduleRow := [exRow1, exRow2, exRow3]

/-- The example schedule truncated to its first two weeks: at day 21 the
resolved week is still W2 (start day 14), whose status has turned Closed. -/
def exampleSchedule2 : List ScheduleRow := [exRow1, exRow2]

/-- Schedule table whose only row belongs to a week literally named
`"TBD"` and starts after day 0. -/
def tbdSchedule : List ScheduleRow := [⟨"TBD", some 5, "d", "G", "H", "A"⟩]

/-- Picks row with an empty `Pick` and an empty `Winner`. -/
def emptyPickRow : PickRow := ⟨"Em", "1", "d", "g1", "", ""⟩

/-- Picks row whose pick does not match the recorded winner. -/
def wrongPickRow : PickRow := ⟨"Em", "1", "d", "g2", "A", "B"⟩

/-- Picks table realising Correct = [true, false, true] for user Em in
week 1. -/
def examplePicks3 : List PickRow :=
  [⟨"Em", "1", "d", "g1", "A", "A"⟩, ⟨"Em", "1", "d", "g2", "B", "C"⟩,
   ⟨"Em", "1", "d", "g3", "D", "D"⟩]

/-- Picks table for the leaderboard example: Em has Correct = [true, true],
Ma has Correct = [true, false], all in week 1. -/
def exampleLBPicks : List PickRow :=
  [⟨"Em", "1", "d", "g1", "A", "A"⟩, ⟨"Em", "1", "d", "g2", "B", "B"⟩,
   ⟨"Ma", "1", "d", "g1", "A", "A"⟩, ⟨"Ma", "1", "d", "g2", "C", "B"⟩]

/-- Picks table with the same game name `"Game1"` in two different weeks. -/
def crossWeekPicks : List PickRow :=
  [⟨"Em", "W1", "d", "Game1", "A", "A"⟩, ⟨"Ma", "W2", "d", "Game1", "B", ""⟩]

/-! Helper lemmas shared by the claim theorems. -/

/-- Overwriting the `Pick` cell leaves every (User, Week, Game) mask
unchanged. -/
theorem keyB_overwrite (r : PickRow) (p u w g u2 w2 g2 : String) :
    keyB (if keyB r u w g then setPick r p else r) u2 w2 g2 = keyB r u2 w2 g2 := by
  by_cases h : keyB r u w g = true
  · rw [if_pos h]; rfl
  · rw [if_neg h]

/-- Overwriting the `Winner` cell leaves every (User, Week, Game) mask
unchanged. -/
theorem keyB_setWinner (r : PickRow) (wn g u2 w2 g2 : String) :
    keyB (if r.Game == g then setWinner r wn else r) u2 w2 g2 = keyB r u2 w2 g2 := by
  by_cases h : (r.Game == g) = true
  · rw [if_pos h]; rfl
  · rw [if_neg h]

/-- The fresh row appended by `save_pick` matches its own key mask. -/
theorem keyB_new_row (u w d g p : String) :
    keyB ⟨u, w, d, g, p, ""⟩ u w g = true := by
  simp [keyB]

/-- A key count is zero exactly when no row matches, i.e. when the
`exists.any()` test of line 52 is false. -/
theorem countP_eq_zero_of_any_false {df : List PickRow} {k : PickRow → Bool}
    (h : df.any k = false) : df.countP k = 0 := by
  rw [List.countP_eq_zero]
  intro r hr
  exact (List.any_eq_false.mp h) r hr

/-- After `save_pick`, exactly one row matches the saved key, provided at
most one did before. -/
theorem countP_save_pick_key (df : List PickRow) (u w d g p : String)
    (hU : df.countP (fun r => keyB r u w g) ≤ 1) :
    (save_pick u w d g p df).countP (fun r => keyB r u w g) = 1 := by
  by_cases hany : df.any (fun r => keyB r u w g) = true
  · have hpos : 0 < df.countP (fun r => keyB r u w g) := by
      rw [List.countP_pos_iff]
      exact List.any_eq_true.mp hany
    have hmap : (save_pick u w d g p df).countP (fun r => keyB r u w g)
        = df.countP (fun r => keyB r u w g) := by
      simp only [save_pick, if_pos hany, List.countP_map]
      exact List.countP_congr (fun r _ => by
        rw [Function.comp_apply, keyB_overwrite])
    omega
  · have hany2 : df.any (fun r => keyB r u w g) = false := by
      simpa using hany
    simp only [save_pick, hany2, Bool.false_eq_true, if_false, List.countP_append,
      countP_eq_zero_of_any_false hany2]
    simp [List.countP_cons, keyB_new_row]

/-- After `save_pick`, every row matching the saved key carries the saved
pick value. -/
theorem pick_of_save_pick (df : List PickRow) (u w d g p : String) :
    ∀ r ∈ save_pick u w d g p df, keyB r u w g = true → r.Pick = p := by
  intro r hr hk
  by_cases hany : df.any (fun r => keyB r u w g) = true
  · simp only [save_pick, if_pos hany, List.mem_map] at hr
    obtain ⟨r0, hr0, rfl⟩ := hr
    by_cases h0 : keyB r0 u w g = true
    · simp [h0, setPick]
    · rw [keyB_overwrite] at hk
      exact absurd hk h0
  · have hany2 : df.any (fun r => keyB r u w g) = false := by simpa using hany
    simp only [save_pick, hany2, Bool.false_eq_true, if_false, List.mem_append,
      List.mem_singleton] at hr
    rcases hr with hr | rfl
    · exact absurd hk ((List.any_eq_false.mp hany2) r hr)
    · rfl

/-- `save_pick` preserves the at-most-one-row-per-key invariant. -/
theorem uniquePicks_save_pick (df : List PickRow) (u w d g p : String)
    (hU : UniquePicks df) : UniquePicks (save_pick u w d g p df) := by
  intro u2 w2 g2
  by_cases hany : df.any (fun r => keyB r u w g) = true
  · have hmap : (save_pick u w d g p df).countP (fun r => keyB r u2 w2 g2)
        = df.countP (fun r => keyB r u2 w2 g2) := by
      simp only [save_pick, if_pos hany, List.countP_map]
      exact List.countP_congr (fun r _ => by
        rw [Function.comp_apply, keyB_overwrite])
    rw [hmap]
    exact hU u2 w2 g2
  · have hany2 : df.any (fun r => keyB r u w g) = false := by simpa using hany
    simp only [save_pick, hany2, Bool.false_eq_true, if_false, List.countP_append]
    by_cases hn : keyB ⟨u, w, d, g, p, ""⟩ u2 w2 g2 = true
    · have : (u = u2 ∧ w = w2) ∧ g = g2 := by simpa [keyB] using hn
      obtain ⟨⟨rfl, rfl⟩, rfl⟩ := this
      simp [List.countP_cons, hn, countP_eq_zero_of_any_false hany2]
    · have h0 : List.countP (fun r => keyB r u2 w2 g2) [(⟨u, w, d, g, p, ""⟩ : PickRow)] = 0 := by
        simp [List.countP_cons, hn]
      rw [h0]
      simpa using hU u2 w2 g2

/-- `save_winner` preserves the at-most-one-row-per-key invariant. -/
theorem uniquePicks_save_winner (df : List PickRow) (g wn : String)
    (hU : UniquePicks df) : UniquePicks (save_winner g wn df) := by
  intro u2 w2 g2
  have hmap : (save_winner g wn df).countP (fun r => keyB r u2 w2 g2)
      = df.countP (fun r => keyB r u2 w2 g2) := by
    simp only [save_winner, List.countP_map]
    exact List.countP_congr (fun r _ => by
      rw [Function.comp_apply, keyB_setWinner])
  rw [hmap]
  exact hU u2 w2 g2

/-- C2: `save_winner(g, w)` keeps the table length, rewrites the `Winner`
cell to `w` on every row whose `Game` equals `g` regardless of that row's
User or Week, leaves all other rows unchanged; in particular two rows of
different weeks sharing the game name both receive the winner. -/
theorem save_winner_sets_all_matching (df : List PickRow) (g w : String) :
    (save_winner g w df).length = df.length ∧
    (∀ (i : Nat) (r : PickRow), df[i]? = some r →
      (save_winner g w df)[i]? = some (if r.Game = g then setWinner r w else r)) ∧
    (∀ (i j : Nat) (r1 r2 : PickRow), df[i]? = some r1 → df[j]? = some r2 →
      r1.Game = g → r2.Game = g → r1.Week ≠ r2.Week →
      ∃ s1 s2, (save_winner g w df)[i]? = some s1 ∧ (save_winner g w df)[j]? = some s2 ∧
        s1.Winner = w ∧ s2.Winner = w) := by
  have hpt : ∀ (i : Nat) (r : PickRow), df[i]? = some r →
      (save_winner g w df)[i]? = some (if r.Game = g then setWinner r w else r) := by
    intro i r hir
    simp only [save_winner, List.getElem?_map, hir, Option.map_some]
    by_cases hg : r.Game = g <;> simp [hg]
  refine ⟨by simp [save_winner], hpt, ?_⟩
  intro i j r1 r2 h1 h2 hg1 hg2 _
  refine ⟨setWinner r1 w, setWinner r2 w, ?_, ?_, rfl, rfl⟩
  · rw [hpt i r1 h1, if_pos hg1]
  · rw [hpt j r2 h2, if_pos hg2]

/-- Witness for C2 on the cross-week example table: recording a winner
for `"Game1"` updates the rows of both weeks W1 and W2. -/
theorem save_winner_sets_all_matching_witness :
    ∃ s1 s2, (save_winner "Game1" "A" crossWeekPicks)[0]? = some s1 ∧
      (save_winner "Game1" "A" crossWeekPicks)[1]? = some s2 ∧
      s1.Winner = "A" ∧ s2.Winner = "A" :=
  (save_winner_sets_all_matching crossWeekPicks "Game1" "A").2.2 0 1
    ⟨"Em", "W1", "d", "Game1", "A", "A"⟩ ⟨"Ma", "W2", "d", "Game1", "B", ""⟩
    rfl rfl rfl rfl (by decide)

/-- C7: starting from a table with at most one row per (User, Week, Game),
`save_pick` again yields at most one row per key, for every choice of
arguments, and `save_winner` preserves the invariant as well. -/
theorem save_ops_preserve_uniqueness (df : List PickRow) (hU : UniquePicks df) :
    (∀ u w d g p, UniquePicks (save_pick u w d g p df)) ∧
    (∀ g wn, UniquePicks (save_winner g wn df)) :=
  ⟨fun u w d g p => uniquePicks_save_pick df u w d g p hU,
   fun g wn => uniquePicks_save_winner df g wn hU⟩

/-- Witness for C7: the invariant holds after saving a pick into the empty
table. -/
theorem save_ops_preserve_uniqueness_witness :
    UniquePicks (save_pick "Em" "1" "d" "g1" "A" []) :=
  (save_ops_preserve_uniqueness [] (fun u w g => by simp)).1 "Em" "1" "d" "g1" "A"

/-- C8: when some row matches (User, Week, Game), `save_pick` ignores its
date argument, keeps the table length and order, rewrites the `Pick` cell
of the matching row to the new pick, and keeps every other cell — in
particular `Date` and `Winner` — of every row unchanged. -/
theorem save_pick_update_frame (df : List PickRow) (u w g d d' p : String)
    (h : df.any (fun r => keyB r u w g) = true) :
    save_pick u w d g p df = save_pick u w d' g p df ∧
    (save_pick u w d g p df).length = df.length ∧
    (∀ (i : Nat) (r : PickRow), df[i]? = some r →
      ∃ r2 : PickRow, (save_pick u w d g p df)[i]? = some r2 ∧
      r2.User = r.User ∧ r2.Week = r.Week ∧ r2.Date = r.Date ∧ r2.Game = r.Game ∧
      r2.Winner = r.Winner ∧ r2.Pick = (if keyB r u w g then p else r.Pick)) := by
  refine ⟨by simp [save_pick, h], by simp [save_pick, h], ?_⟩
  intro i r hir
  simp only [save_pick, if_pos h, List.getElem?_map, hir, Option.map_some]
  refine ⟨_, rfl, ?_⟩
  by_cases hk : keyB r u w g = true <;> simp [hk, setPick]

/-- Witness for C8: updating Em's existing pick for game g1 keeps the
three-row example table at three rows. -/
theorem save_pick_update_frame_witness :
    (save_pick "Em" "1" "dnew" "g1" "B" examplePicks3).length = examplePicks3.length :=
  (save_pick_update_frame examplePicks3 "Em" "1" "g1" "dnew" "dother" "B"
    (by decide)).2.1

/-- C9: `save_winner` is idempotent — on a table where every row of the
game already stores the winner it is the identity, running it twice
equals running it once — and the selectbox guard of line 158 never fires
when the selected winner equals the displayed one or is empty. -/
theorem save_winner_idempotent (df : List PickRow) (g w : String) :
    ((∀ r ∈ df, r.Game = g → r.Winner = w) → save_winner g w df = df) ∧
    save_winner g w (save_winner g w df) = save_winner g w df ∧
    (∀ x, fire_save x x = false) ∧
    (∀ c, fire_save "" c = false) := by
  refine ⟨?_, ?_, ?_, ?_⟩
  · intro h
    have hid : ∀ r ∈ df, (if r.Game == g then setWinner r w else r) = r := by
      intro r hr
      by_cases hg : r.Game = g
      · have hw := h r hr hg
        cases r
        simp_all [setWinner]
      · simp [hg]
    calc save_winner g w df = df.map id := List.map_congr_left hid
    _ = df := List.map_id df
  · simp only [save_winner, List.map_map]
    refine List.map_congr_left ?_
    intro r _
    by_cases hg : r.Game = g <;> simp [Function.comp, hg, setWinner]
  · intro x
    simp [fire_save]
  · intro c
    simp [fire_save]

/-- Witness for C9: re-recording the already-stored winner of `"Game1"`
leaves the one-row table unchanged. -/
theorem save_winner_idempotent_witness :
    save_winner "Game1" "A" [(⟨"Em", "W1", "d", "Game1", "A", "A"⟩ : PickRow)]
      = [(⟨"Em", "W1", "d", "Game1", "A", "A"⟩ : PickRow)] :=
  (save_winner_idempotent [(⟨"Em", "W1", "d", "Game1", "A", "A"⟩ : PickRow)]
    "Game1" "A").1 (by decide)

/-- C1: `save_pick` is an upsert keyed on (User, Week, Game): with no
matching row it appends `{User, Week, Date, Game, Pick, Winner: ""}`, with
a matching row it overwrites that row's `Pick`; consequently, saving twice
for the same key (starting from a table with at most one row for the key)
leaves exactly one row for the key and it holds the latest pick. -/
theorem save_pick_upsert (df : List PickRow) (u w g d1 d2 p1 p2 : String)
    (hU : df.countP (fun r => keyB r u w g) ≤ 1) :
    (df.any (fun r => keyB r u w g) = false →
      save_pick u w d1 g p1 df = df ++ [⟨u, w, d1, g, p1, ""⟩]) ∧
    (df.any (fun r => keyB r u w g) = true →
      save_pick u w d1 g p1 df
        = df.map (fun r => if keyB r u w g then setPick r p1 else r)) ∧
    (save_pick u w d2 g p2 (save_pick u w d1 g p1 df)).countP
      (fun r => keyB r u w g) = 1 ∧
    (∀ r ∈ save_pick u w d2 g p2 (save_pick u w d1 g p1 df),
      keyB r u w g = true → r.Pick = p2) := by
  refine ⟨?_, ?_, ?_, pick_of_save_pick _ u w d2 g p2⟩
  · intro h
    simp [save_pick, h]
  · intro h
    simp [save_pick, h]
  · exact countP_save_pick_key _ u w d2 g p2
      (countP_save_pick_key df u w d1 g p1 hU).le

/-- Witness for C1: saving twice into the empty table leaves exactly one
row for the key. -/
theorem save_pick_upsert_witness :
    (save_pick "Em" "1" "d2" "G" "B" (save_pick "Em" "1" "d1" "G" "A" [])).countP
      (fun r => keyB r "Em" "1" "G") = 1 :=
  (save_pick_upsert [] "Em" "1" "G" "d1" "d2" "A" "B" (by simp)).2.2.1

/-- The sum of the 0/1 indicator column equals the number of rows whose
`Correct` value is true. -/
theorem sum_indicator_eq_countP (l : List PickRow) :
    (l.map (fun r => if correctB r then (1 : ℚ) else 0)).sum = l.countP correctB := by
  induction l with
  | nil => simp
  | cons a t ih =>
    by_cases h : correctB a = true <;> simp [h, ih, List.countP_cons, add_comm]

/-- C5: with at least one row for the selected user and week, the
displayed weekly accuracy is the fraction of rows with `Pick == Winner`
times 100, rounded to one decimal (half to even); with no such rows no
value is shown. -/
theorem weekly_accuracy_spec (df : List PickRow) (u w : String) :
    (df.filter (fun r => r.User == u && r.Week == w) ≠ [] →
      weekly_accuracy df u w = some (round1
        (((df.filter (fun r => r.User == u && r.Week == w)).countP correctB : ℚ) * 100 /
          (df.filter (fun r => r.User == u && r.Week == w)).length))) ∧
    (df.filter (fun r => r.User == u && r.Week == w) = [] →
      weekly_accuracy df u w = none) := by
  constructor
  · intro h
    have hne : (df.filter (fun r => r.User == u && r.Week == w)).isEmpty = false := by
      cases hh : (df.filter (fun r => r.User == u && r.Week == w)).isEmpty
      · rfl
      · exact absurd (List.isEmpty_iff.mp hh) h
    simp only [weekly_accuracy, hne, Bool.false_eq_true, if_false]
    congr 2
    rw [meanCorrect, sum_indicator_eq_countP, div_mul_eq_mul_div]
  · intro h
    simp [weekly_accuracy, h]

/-- Witness for C5: Correct = [true, false, true] yields 66.7 percent. -/
theorem weekly_accuracy_spec_witness :
    weekly_accuracy examplePicks3 "Em" "1" = some (667/10) := by
  have h := (weekly_accuracy_spec examplePicks3 "Em" "1").1 (by decide)
  have h2 : examplePicks3.filter (fun r => r.User == "Em" && r.Week == "1")
      = examplePicks3 := by decide
  have h3 : examplePicks3.countP correctB = 2 := by decide
  rw [h, h2, h3]
  norm_num [examplePicks3, round1, roundHalfEven]

/-- Every user appearing among the rows occupies a leaderboard entry built
from the mean of that user's `Correct` values. -/
theorem mem_leaderboard (df : List PickRow) (u : String)
    (h : ∃ r ∈ df, r.User = u) :
    (u, round1 (meanCorrect (df.filter (fun r => r.User == u)) * 100))
      ∈ leaderboard df := by
  have hu : u ∈ sortedUsers df := by
    obtain ⟨r, hr, rfl⟩ := h
    simp only [sortedUsers, List.mem_mergeSort, List.mem_dedup, List.mem_map]
    exact ⟨r, hr, rfl⟩
  exact List.mem_map.mpr ⟨u, hu, rfl⟩

/-- C6: the weekly leaderboard carries, for every user with rows in the
current week, the mean of that user's `Correct` values over the week times
100 rounded to one decimal; the cumulative leaderboard does the same over
all rows of all weeks. -/
theorem leaderboard_aggregation (df : List PickRow) (week u : String) :
    ((∃ r ∈ df.filter (fun r => r.Week == week), r.User = u) →
      (u, round1 (meanCorrect
        ((df.filter (fun r => r.Week == week)).filter (fun r => r.User == u)) * 100))
        ∈ weekly_leaderboard df week) ∧
    ((∃ r ∈ df, r.User = u) →
      (u, round1 (meanCorrect (df.filter (fun r => r.User == u)) * 100))
        ∈ cumulative_leaderboard df) := by
  exact ⟨fun h => mem_leaderboard _ u h, fun h => mem_leaderboard df u h⟩

/-- Witness for C6: Em with Correct = [true, true] gets the row
(Em, 100.0) on the weekly leaderboard of the example table. -/
theorem leaderboard_aggregation_witness :
    ("Em", (100 : ℚ)) ∈ weekly_leaderboard exampleLBPicks "1" := by
  have h := (leaderboard_aggregation exampleLBPicks "1" "Em").1 (by decide)
  have hf : (exampleLBPicks.filter (fun r => r.Week == "1")).filter
      (fun r => r.User == "Em")
      = [⟨"Em", "1", "d", "g1", "A", "A"⟩, ⟨"Em", "1", "d", "g2", "B", "B"⟩] := by decide
  rw [hf] at h
  have h2 : round1 (meanCorrect
      ([⟨"Em", "1", "d", "g1", "A", "A"⟩, ⟨"Em", "1", "d", "g2", "B", "B"⟩] : List PickRow)
      * 100) = 100 := by
    simp [meanCorrect, correctB]
    norm_num [round1, roundHalfEven]
  rw [h2] at h
  exact h

/-- C10: a row whose `Pick` and `Winner` are both empty has Correct =
true, so it counts as a correct pick: alone it shows 100 percent weekly
accuracy, it lifts a 0 percent week to 50 percent, and it puts its user at
100.0 on the cumulative leaderboard. -/
theorem empty_pick_counts_correct :
    (∀ r : PickRow, r.Pick = "" → r.Winner = "" → correctB r = true) ∧
    weekly_accuracy [emptyPickRow] "Em" "1" = some 100 ∧
    weekly_accuracy [wrongPickRow] "Em" "1" = some 0 ∧
    weekly_accuracy [wrongPickRow, emptyPickRow] "Em" "1" = some 50 ∧
    ("Em", (100 : ℚ)) ∈ cumulative_leaderboard [emptyPickRow] := by
  refine ⟨?_, ?_, ?_, ?_, ?_⟩
  · intro r h1 h2
    simp [correctB, h1, h2]
  · simp [weekly_accuracy, emptyPickRow, meanCorrect, correctB]
    norm_num [round1, roundHalfEven]
  · simp [weekly_accuracy, wrongPickRow, meanCorrect, correctB]
    norm_num [round1, roundHalfEven]
  · simp [weekly_accuracy, wrongPickRow, emptyPickRow, meanCorrect, correctB]
    norm_num [round1, roundHalfEven]
  · have h := mem_leaderboard [emptyPickRow] "Em" ⟨emptyPickRow, by simp, rfl⟩
    have hf : ([emptyPickRow] : List PickRow).filter (fun r => r.User == "Em")
        = [emptyPickRow] := by decide
    rw [hf] at h
    have h2 : round1 (meanCorrect [emptyPickRow] * 100) = 100 := by
      simp [meanCorrect, emptyPickRow, correctB]
      norm_num [round1, roundHalfEven]
    rw [h2] at h
    exact h

/-- Witness for C10: the concrete all-empty row is counted correct. -/
theorem empty_pick_counts_correct_witness :
    correctB emptyPickRow = true :=
  empty_pick_counts_correct.1 emptyPickRow rfl rfl

/-- A maximum returned by `maxDate` is attained by some row of the list. -/
theorem maxDate_mem : ∀ (l : List ScheduleRow) (m : Int), maxDate l = some m →
    ∃ r ∈ l, r.WeekStartDate = some m := by
  intro l
  induction l with
  | nil =>
    intro m h
    simp [maxDate] at h
  | cons a t ih =>
    intro m h
    cases ha : a.WeekStartDate with
    | none =>
      simp only [maxDate, ha] at h
      obtain ⟨r, hr, hrm⟩ := ih m h
      exact ⟨r, List.mem_cons_of_mem a hr, hrm⟩
    | some d =>
      cases ht : maxDate t with
      | none =>
        simp only [maxDate, ha, ht, Option.some.injEq] at h
        exact ⟨a, List.mem_cons_self a t, by rw [ha, h]⟩
      | some m2 =>
        simp only [maxDate, ha, ht, Option.some.injEq] at h
        rcases max_choice d m2 with hc | hc
        · rw [hc] at h
          exact ⟨a, List.mem_cons_self a t, by rw [ha, h]⟩
        · rw [hc] at h
          obtain ⟨r, hr, hrm⟩ := ih m (by rw [ht, h])
          exact ⟨r, List.mem_cons_of_mem a hr, hrm⟩

/-- Any parsed date in the list is bounded by some maximum that `maxDate`
returns. -/
theorem maxDate_isSome : ∀ (l : List ScheduleRow) (r : ScheduleRow) (d : Int),
    r ∈ l → r.WeekStartDate = some d → ∃ m, maxDate l = some m ∧ d ≤ m := by
  intro l
  induction l with
  | nil =>
    intro r d hr
    simp at hr
  | cons a t ih =>
    intro r d hr hd
    rcases List.mem_cons.mp hr with rfl | hr2
    · cases ht : maxDate t with
      | none => exact ⟨d, by simp only [maxDate, hd, ht], le_refl d⟩
      | some m2 => exact ⟨max d m2, by simp only [maxDate, hd, ht], le_max_left d m2⟩
    · obtain ⟨m, hm, hdm⟩ := ih r d hr2 hd
      cases ha : a.WeekStartDate with
      | none => exact ⟨m, by simp only [maxDate, ha, hm], hdm⟩
      | some da => exact ⟨max da m, by simp only [maxDate, ha, hm], hdm.trans (le_max_right da m)⟩

/-- Membership in `past_weeks` means membership in the schedule with a
parsed week start on or before today. -/
theorem pastWeeks_mem_le (sched : List ScheduleRow) (today : Int) (r : ScheduleRow)
    (hr : r ∈ pastWeeks sched today) :
    r ∈ sched ∧ ∃ d, r.WeekStartDate = some d ∧ d ≤ today := by
  rw [pastWeeks, List.mem_filter] at hr
  refine ⟨hr.1, ?_⟩
  have h2 := hr.2
  unfold parsedLe at h2
  cases hd : r.WeekStartDate with
  | none =>
    rw [hd] at h2
    simp at h2
  | some d =>
    rw [hd] at h2
    simp only [decide_eq_true_eq] at h2
    exact ⟨d, rfl, h2⟩

/-- A schedule row with a parsed week start on or before today belongs to
`past_weeks`. -/
theorem mem_pastWeeks_of (sched : List ScheduleRow) (today : Int) (r : ScheduleRow)
    (d : Int) (hr : r ∈ sched) (hd : r.WeekStartDate = some d) (hle : d ≤ today) :
    r ∈ pastWeeks sched today := by
  rw [pastWeeks, List.mem_filter]
  refine ⟨hr, ?_⟩
  unfold parsedLe
  rw [hd]
  simpa using hle

/-- C3 (amended): when some week start is on or before today, the current
week is the `Week` cell of a schedule row carrying the maximum week start
on or before today; when none is, the current week is the sentinel `"TBD"`,
the informational message fires, and the week schedule consists of the
schedule rows whose `Week` cell literally equals `"TBD"` (empty whenever
no schedule row uses that name). -/
theorem current_week_resolution (sched : List ScheduleRow) (today : Int) :
    (pastWeeks sched today ≠ [] →
      ∃ m r, maxStartLe sched today = some m ∧ m ≤ today ∧
        (∀ r2 ∈ sched, ∀ d, r2.WeekStartDate = some d → d ≤ today → d ≤ m) ∧
        r ∈ sched ∧ r.WeekStartDate = some m ∧
        current_week sched today = r.Week) ∧
    (pastWeeks sched today = [] →
      current_week sched today = "TBD" ∧
      week_schedule sched today = sched.filter (fun r => r.Week == "TBD") ∧
      no_week_message sched today = true) := by
  constructor
  · intro hne
    obtain ⟨r0, hr0⟩ := List.exists_mem_of_ne_nil _ hne
    obtain ⟨hr0s, d0, hd0, hd0le⟩ := pastWeeks_mem_le sched today r0 hr0
    obtain ⟨m, hm, hd0m⟩ := maxDate_isSome (pastWeeks sched today) r0 d0 hr0 hd0
    have hm2 : maxStartLe sched today = some m := hm
    obtain ⟨rm, hrm, hrmd⟩ := maxDate_mem (pastWeeks sched today) m hm
    obtain ⟨hrms, dm, hdm, hdmle⟩ := pastWeeks_mem_le sched today rm hrm
    have hmle : m ≤ today := by
      rw [hrmd, Option.some.injEq] at hdm
      rw [hdm]
      exact hdmle
    have hfind : ∃ rf, sched.find? (fun r => r.WeekStartDate == some m) = some rf := by
      rw [← Option.isSome_iff_exists, List.find?_isSome]
      exact ⟨rm, hrms, by rw [hrmd]; simp⟩
    obtain ⟨rf, hrf⟩ := hfind
    have hrfs : rf ∈ sched := List.mem_of_find?_eq_some hrf
    have hrfd : rf.WeekStartDate = some m := by
      have hp := List.find?_some hrf
      simpa using hp
    have hie : (pastWeeks sched today).isEmpty = false := by
      cases hh : (pastWeeks sched today).isEmpty
      · rfl
      · exact absurd (List.isEmpty_iff.mp hh) hne
    refine ⟨m, rf, hm2, hmle, ?_, hrfs, hrfd, ?_⟩
    · intro r2 hr2 d hd hdle
      have hmem := mem_pastWeeks_of sched today r2 d hr2 hd hdle
      obtain ⟨m3, hm3, hdm3⟩ := maxDate_isSome (pastWeeks sched today) r2 d hmem hd
      rw [hm, Option.some.injEq] at hm3
      rw [hm3]
      exact hdm3
    · simp only [current_week, hie, Bool.false_eq_true, if_false, hm2, hrf]
  · intro hempty
    have h1 : (pastWeeks sched today).isEmpty = true := by rw [hempty]; rfl
    have hc : current_week sched today = "TBD" := by
      simp only [current_week, h1, if_true]
    refine ⟨hc, ?_, ?_⟩
    · simp only [week_schedule, hc]
    · simp only [no_week_message, h1]

/-- Counterexample for C3 as stated: a schedule whose only row belongs to
a future week literally named `"TBD"` resolves to the sentinel week
`"TBD"`, yet the week schedule is not empty. -/
theorem current_week_tbd_cex :
    pastWeeks tbdSchedule 0 = [] ∧ current_week tbdSchedule 0 = "TBD" ∧
    week_schedule tbdSchedule 0 ≠ [] := by decide

/-- Witness for C3 on the example schedule at day 16: a maximum week start
on or before day 16 exists and names the current week. -/
theorem current_week_resolution_witness :
    ∃ m r, maxStartLe exampleSchedule 16 = some m ∧ m ≤ 16 ∧
      (∀ r2 ∈ exampleSchedule, ∀ d, r2.WeekStartDate = some d → d ≤ 16 → d ≤ m) ∧
      r ∈ exampleSchedule ∧ r.WeekStartDate = some m ∧
      current_week exampleSchedule 16 = r.Week :=
  (current_week_resolution exampleSchedule 16).1 (by decide)

/-- C4: once the current week has schedule rows, the status is `"Open"`
exactly when today is before the week start plus 7 days, and `"Closed"`
otherwise; with no schedule rows the status defaults to `"Open"`.  On the
example schedule (week starts at days 7, 14, 21) the resolved week at day
16 is W2, Open at days 16 and 20; the week starting day 14 is Closed once
today reaches day 21 (at which point it is the resolved week only on the
schedule truncated before W3, since a full schedule resolves to W3). -/
theorem week_status_rule (sched : List ScheduleRow) (today : Int)
    (r : ScheduleRow) (d : Int) :
    ((week_schedule sched today).head? = some r → r.WeekStartDate = some d →
      (week_status sched today = "Open" ↔ today < d + 7)) ∧
    (week_schedule sched today = [] → week_status sched today = "Open") ∧
    current_week exampleSchedule 16 = "W2" ∧
    week_status exampleSchedule 16 = "Open" ∧
    week_status exampleSchedule 20 = "Open" ∧
    current_week exampleSchedule2 21 = "W2" ∧
    week_status exampleSchedule2 21 = "Closed" := by
  refine ⟨?_, ?_, by decide, by decide, by decide, by decide, by decide⟩
  · intro hh hd
    simp only [week_status, hh, hd]
    by_cases h7 : today < d + 7
    · simp [h7]
    · simp [h7]
  · intro hh
    simp only [week_status, hh, List.head?_nil]

/-- Witness for C4: at day 16 the resolved week W2 (start day 14) is Open
precisely because 16 is before 14 + 7. -/
theorem week_status_rule_witness :
    week_status exampleSchedule 16 = "Open" ↔ (16 : Int) < 14 + 7 :=
  (week_status_rule exampleSchedule 16 exRow2 14).1 (by decide) rfl
